import Mathlib

/-!
# gm: a GraphicsMagick adapter for the Go image package

A shallow embedding of `gm.go`.  The three exported operations `Decode`,
`DecodeConfig` and `EncodeRGBA`, the C helper `setMagick` and the package
`init` are translated statement by statement.

* The native engine (GraphicsMagick) is a parameter: a record of functions, one per
  entry point the adapter calls, with no assumption on what they return.
* Every call that crosses into C is recorded, in program order, in a trace, so that
  statements about which calls were made, and which handles were acquired and
  released, are statements about that trace.
* A Go run-time abort (indexing the first element of an empty slice, a negative length)
  is an outcome of its own, distinct from returning; deferred calls still run.
* Machine integers are mathematical integers with the wrap-around written out.  The
  widths are those of the LP64 targets named in the cgo directives
  (linux, openbsd, freebsd on 64-bit hardware): Go `int`, C `unsigned long` and
  `size_t` have 64 bits, C `int` has 32.
-/

namespace GM

/-! ## Machine integers -/

/-- One octet. -/
abbrev Byte := Fin 256

/-- Go conversion `int(x)`, and the result of `int` arithmetic: the 64-bit
two-complement reading of `x`. -/
def int (x : Int) : Int :=
  (9223372036854775808 + x) % 18446744073709551616 - 9223372036854775808

/-- The cgo conversion `C.int(x)`: the 32-bit two-complement reading of `x`. -/
def C.int (x : Int) : Int :=
  (2147483648 + x) % 4294967296 - 2147483648

/-- The cgo conversion `C.ulong(x)`: `x` reduced modulo `2^64`. -/
def C.ulong (x : Int) : Nat :=
  (x % 18446744073709551616).toNat

/-! ## Errors, outcomes -/

/-- A Go `error` value, identified by its message. -/
structure Error where
  msg : String
deriving DecidableEq, Repr

/-- Go `errors.New`. -/
def errors.New (text : String) : Error := ⟨text⟩

/-- How a Go function call ends: it returns a value, or the run time aborts it. -/
inductive Outcome (α : Type) where
  | ret (v : α)
  | abort (why : String)
deriving DecidableEq, Repr

/-- The run-time abort raised by `&s[0]` on an empty slice `s`. -/
def indexOutOfRange : String := "index out of range [0] with length 0"

/-! ## The native engine -/

/-- The native `Image` handle, as far as the adapter looks into it: the two dimension
fields (C `unsigned long`), the bytes of the fixed-size `magick` slot, and the bytes of
the structure that lie after that slot. -/
structure Image where
  columns : Nat
  rows : Nat
  magick : List Byte
  after : List Byte
deriving DecidableEq, Repr

/-- The engine entry points the adapter calls, and the header constant `MaxTextExtent`
(the declared size of the `magick` slot).  `none` stands for a null pointer.
`DispatchImage im x y columns rows map` answers with its status and the bytes it stored
from the start of the destination region.
`ConstituteImage columns rows map pixels` is given the caller pixel bytes.
`ImageToBlob im` answers with the encoded blob (its length is what the engine stores in
`*length`); with a null result the length stays at the zero it was declared with. -/
structure Engine where
  MaxTextExtent : Nat
  BlobToImage : List Byte → Option Image
  PingBlob : List Byte → Option Image
  DispatchImage : Image → Nat → Nat → Nat → Nat → String → Nat × List Byte
  ConstituteImage : Nat → Nat → String → List Byte → Option Image
  ImageToBlob : Image → Option (List Byte)

/-- The C-side variables of the adapter that hold a native resource. -/
inductive Handle where
  | exc
  | info
  | im
  | m
  | mg
  | data
deriving DecidableEq, Repr

/-- One call across the language boundary (or one write to the output sink), with the
arguments and the result that matter. `free none` is `free(NULL)`. -/
inductive Event where
  | GetExceptionInfo
  | CloneImageInfo
  | DestroyImageInfo
  | BlobToImage (data : List Byte) (ret : Option Image)
  | PingBlob (data : List Byte) (ret : Option Image)
  | DispatchImage (im : Image) (columns rows : Nat) (ret : Nat)
  | ConstituteImage (columns rows : Nat) (pixels : List Byte) (ret : Option Image)
  | DestroyImage (im : Image)
  | CString (var : Handle) (s : List Byte)
  | free (p : Option Handle)
  | setMagick (im : Image) (m : List Byte)
  | ImageToBlob (im : Image) (ret : Option (List Byte))
  | Write (p : List Byte)
  | InitializeMagick
deriving DecidableEq, Repr

/-- The result of running an operation: how it ended and the calls it made. -/
structure Run (α : Type) where
  result : Outcome α
  trace : List Event

/-- The state of a Go function activation: the calls made so far and the deferred calls,
most recently deferred first. -/
structure Frame where
  trace : List Event
  defers : List Event

/-- A fresh activation. -/
def Frame.enter : Frame := ⟨[], []⟩

/-- Make a call now. -/
def Frame.call (f : Frame) (e : Event) : Frame :=
  ⟨f.trace ++ [e], f.defers⟩

/-- Schedule a call with `defer`. -/
def Frame.defer (f : Frame) (e : Event) : Frame :=
  ⟨f.trace, e :: f.defers⟩

/-- Leave the activation (by `return` or by an abort): the deferred calls run, last
deferred first. -/
def Frame.leave {α : Type} (f : Frame) (o : Outcome α) : Run α :=
  ⟨o, f.trace ++ f.defers⟩

/-! ## The Go standard library, as far as the adapter uses it -/

/-- A byte source (`io.Reader`).  `plain data err` yields `data` and then ends, with the
error `err` if there is one and with end-of-file otherwise.  `buffered size buf data err`
is a `*bufio.Reader` whose buffer has `size` bytes and currently holds `buf` unread, over
a source that yields `data` and ends in the same way. -/
inductive Reader where
  | plain (data : List Byte) (err : Option Error)
  | buffered (size : Nat) (buf : List Byte) (data : List Byte) (err : Option Error)
deriving DecidableEq, Repr

/-- Go `ioutil.ReadAll`: everything the source yields until it ends, and the error
that ended it (end-of-file is not an error). -/
def ioutil.ReadAll : Reader → List Byte × Option Error
  | .plain data err => (data, err)
  | .buffered _ buf data err => (buf ++ data, err)

/-- Go `image.Point`. -/
structure image.Point where
  X : Int
  Y : Int
deriving DecidableEq, Repr

/-- Go `image.Rectangle`. -/
structure image.Rectangle where
  Min : image.Point
  Max : image.Point
deriving DecidableEq, Repr

/-- Go `image.Rect`: the rectangle with the given corners, the coordinates swapped where
needed so that it is well formed. -/
def image.Rect (x0 y0 x1 y1 : Int) : image.Rectangle :=
  let (x0, x1) := if x0 > x1 then (x1, x0) else (x0, x1)
  let (y0, y1) := if y0 > y1 then (y1, y0) else (y0, y1)
  ⟨⟨x0, y0⟩, ⟨x1, y1⟩⟩

/-- Go `Rectangle.Dx`. -/
def image.Rectangle.Dx (r : image.Rectangle) : Int := int (r.Max.X - r.Min.X)

/-- Go `Rectangle.Dy`. -/
def image.Rectangle.Dy (r : image.Rectangle) : Int := int (r.Max.Y - r.Min.Y)

/-- Go `image.RGBA`. -/
structure image.RGBA where
  Pix : List Byte
  Stride : Int
  Rect : image.Rectangle
deriving DecidableEq, Repr

/-- Go `image.mul3NonNeg`: the product of three non-negative numbers, or `-1` when an
argument is negative or a product leaves the word. -/
def image.mul3NonNeg (x y z : Int) : Int :=
  if x < 0 ∨ y < 0 ∨ z < 0 then -1
  else if 18446744073709551616 ≤ x * y then -1
  else if 18446744073709551616 ≤ x * y * z then -1
  else if int (x * y * z) < 0 then -1
  else int (x * y * z)

/-- Go `image.NewRGBA` (as of Go 1.14): a zeroed image with the given bounds, of
`4 * Dx * Dy` bytes and stride `4 * Dx`; `none` is the abort "Rectangle has huge or
negative dimensions" raised when that length is negative or leaves the word. -/
def image.NewRGBA (r : image.Rectangle) : Option image.RGBA :=
  let n := image.mul3NonNeg 4 r.Dx r.Dy
  if n < 0 then none
  else some ⟨List.replicate n.toNat 0, int (4 * r.Dx), r⟩

/-- Storing `bytes` from the start of the region `buf`: the region keeps its length. -/
def store (buf bytes : List Byte) : List Byte :=
  (bytes ++ buf.drop bytes.length).take buf.length

/-! ## Decode -/

/-- The adapter `Decode` (gm.go, lines 30-61).  The source is read to its end; a read
error is returned at once.  The error context and the image-info context are set up and
the destruction of the latter is deferred.  `&data[0]` aborts on an empty slice.  The
engine decodes the bytes read (the slice and its length, which the conversion to `size_t`
leaves as it is); a null handle gives the error "Unable to decode image".  Otherwise an
RGBA image with corners `(0,0)` and `(int(im.columns), int(im.rows))` is allocated, the
map string is allocated and its release deferred, `&img.Pix[0]` aborts on an empty
buffer, and the engine dispatches into the buffer: status 0 gives the error "Unable to
dispatch image" and no image, any other status gives the image.  The handle is destroyed
in both cases. -/
def Decode (eng : Engine) (r : Reader) : Run (Option image.RGBA × Option Error) :=
  let f := Frame.enter
  match ioutil.ReadAll r with
  | (_, some err) => f.leave (.ret (none, some err))
  | (data, none) =>
    let f := f.call .GetExceptionInfo
    let f := f.call .CloneImageInfo
    let f := f.defer .DestroyImageInfo
    match data with
    | [] => f.leave (.abort indexOutOfRange)
    | _ :: _ =>
      let im := eng.BlobToImage data
      let f := f.call (.BlobToImage data im)
      match im with
      | none => f.leave (.ret (none, some (errors.New "Unable to decode image")))
      | some im =>
        match image.NewRGBA (image.Rect 0 0 (int im.columns) (int im.rows)) with
        | none => f.leave (.abort "image: NewRGBA Rectangle has huge or negative dimensions")
        | some img =>
          let f := f.call (.CString .m [82, 71, 66, 65])
          let f := f.defer (.free (some .m))
          match img.Pix with
          | [] => f.leave (.abort indexOutOfRange)
          | _ :: _ =>
            let d := eng.DispatchImage im 0 0 im.columns im.rows "RGBA"
            let f := f.call (.DispatchImage im im.columns im.rows d.1)
            let img := { img with Pix := store img.Pix d.2 }
            let res : Option image.RGBA × Option Error :=
              if d.1 = 0 then (none, some (errors.New "Unable to dispatch image"))
              else (some img, none)
            let f := f.call (.DestroyImage im)
            f.leave (.ret res)

/-! ## DecodeConfig -/

/-- Go `*bufio.Reader`: a buffer of `size` bytes that holds `buf` unread, over a source
that yields `data` and then ends with `err` (end-of-file when `none`). -/
structure bufio.Reader where
  size : Nat
  buf : List Byte
  data : List Byte
  err : Option Error
deriving DecidableEq, Repr

/-- Go `bufio.defaultBufSize`. -/
def bufio.defaultBufSize : Nat := 4096

/-- Go `io.EOF`. -/
def io.EOF : Error := errors.New "EOF"

/-- Go `bufio.ErrBufferFull`. -/
def bufio.ErrBufferFull : Error := errors.New "bufio: buffer full"

/-- Go `bufio.NewReader`: a source that is already a `*bufio.Reader` with a buffer of
at least the default size is returned as it is; any other source is wrapped in a new
reader whose buffer is empty. -/
def bufio.NewReader : GM.Reader → bufio.Reader
  | .buffered size buf data err =>
    if bufio.defaultBufSize ≤ size then ⟨size, buf, data, err⟩
    else ⟨bufio.defaultBufSize, [], buf ++ data, err⟩
  | .plain data err => ⟨bufio.defaultBufSize, [], data, err⟩

/-- Go `(*bufio.Reader).Buffered`: the number of bytes that can be read from the buffer. -/
def bufio.Reader.Buffered (b : bufio.Reader) : Nat := b.buf.length

/-- Go `(*bufio.Reader).Peek`: the next `n` bytes without advancing.  When the buffer
holds fewer, it is filled from the source (here in one read, as far as the source and the
buffer allow); what is still missing is reported with the error that ended the source, or
with `ErrBufferFull`. -/
def bufio.Reader.Peek (b : bufio.Reader) (n : Nat) : List Byte × Option Error :=
  if n ≤ b.buf.length then (b.buf.take n, none)
  else
    let got := b.buf ++ b.data.take (b.size - b.buf.length)
    if n ≤ got.length then (got.take n, none)
    else if got.length < b.size then (got, some (b.err.getD io.EOF))
    else (got, some bufio.ErrBufferFull)

/-- Go `color.Model`, as far as it is used. -/
inductive color.Model where
  | RGBAModel
deriving DecidableEq, Repr

/-- Go `image.Config`; a nil colour model is `none`. -/
structure image.Config where
  ColorModel : Option color.Model
  Width : Int
  Height : Int
deriving DecidableEq, Repr

/-- The adapter `DecodeConfig` (gm.go, lines 63-92).  The source is wrapped by
`bufio.NewReader`; the test of the still nil `err` that follows never fires.  The bytes
peeked at are those that are buffered, `b.Peek(b.Buffered())`; an error of `Peek` is
returned with the zero descriptor.  The contexts are set up as in `Decode`, `&data[0]`
aborts on an empty slice, and the engine probes the `sz` bytes at that address.  A null
handle gives the error "Unable to decode image"; otherwise the descriptor gets
`int(im.columns)`, `int(im.rows)` and the RGBA colour model, and the handle is
destroyed. -/
def DecodeConfig (eng : Engine) (r : Reader) : Run (image.Config × Option Error) :=
  let f := Frame.enter
  let cfg : image.Config := ⟨none, 0, 0⟩
  let b := bufio.NewReader r
  match (none : Option Error) with
  | some err => f.leave (.ret (cfg, some err))
  | none =>
    let sz := b.Buffered
    match b.Peek sz with
    | (_, some err) => f.leave (.ret (cfg, some err))
    | (data, none) =>
      let f := f.call .GetExceptionInfo
      let f := f.call .CloneImageInfo
      let f := f.defer .DestroyImageInfo
      match data with
      | [] => f.leave (.abort indexOutOfRange)
      | _ :: _ =>
        let im := eng.PingBlob (data.take sz)
        let f := f.call (.PingBlob (data.take sz) im)
        match im with
        | none => f.leave (.ret (cfg, some (errors.New "Unable to decode image")))
        | some im =>
          let cfg := { cfg with Width := int im.columns }
          let cfg := { cfg with Height := int im.rows }
          let cfg := { cfg with ColorModel := some color.Model.RGBAModel }
          let f := f.call (.DestroyImage im)
          f.leave (.ret (cfg, none))

/-! ## EncodeRGBA -/

/-- The cgo helper `C.CString`: a C copy of the bytes of a Go string, with the
terminating NUL. -/
def C.CString (s : List Byte) : List Byte := s ++ [0]

/-- The cgo helper `C.GoBytes(p, n)`: a Go copy of the `n` bytes at `p`, the empty slice
when `n` is zero; `none` is the abort on a negative length, or on a null `p` that is to
be read. -/
def C.GoBytes (p : Option (List Byte)) (n : Int) : Option (List Byte) :=
  if n = 0 then some []
  else if n < 0 then none
  else p.map fun l => l.take n.toNat

/-- The `n` bytes that C `strncpy(dst, src, n)` stores at `dst`: the bytes of `src`
before its first NUL, and NUL from there on. -/
def strncpy : List Byte → Nat → List Byte
  | _, 0 => []
  | [], n + 1 => List.replicate (n + 1) 0
  | c :: cs, n + 1 => if c = 0 then List.replicate (n + 1) 0 else c :: strncpy cs n

/-- The C helper `setMagick`: `strncpy(im->magick, m, MaxTextExtent)`.  The bytes are
stored from the start of the `magick` slot into the memory of the structure, which is the
slot followed by what lies after it. -/
def setMagick (MaxTextExtent : Nat) (im : Image) (m : List Byte) : Image :=
  let bytes := strncpy m MaxTextExtent
  let mem := bytes ++ (im.magick ++ im.after).drop bytes.length
  { im with magick := mem.take im.magick.length, after := mem.drop im.magick.length }

/-- An output sink (`io.Writer`): what a call of `Write` answers. -/
abbrev Writer := List Byte → Int × Option Error

/-- The adapter `EncodeRGBA` (gm.go, lines 94-122).  The error context is set up and the
map string allocated; `&im.Pix[0]` aborts on an empty buffer.  The engine constitutes an
image from `im.Bounds().Max` (converted to `unsigned long`) and the pixel bytes, and the
map string is released.  On a null handle the error "Unable to constitute image" is
returned.  Otherwise an image-info context and the C copy of the tag are allocated,
their release deferred, the tag is written into the handle by `setMagick`, the engine
encodes the handle to a blob whose release is deferred, `C.GoBytes` copies
`C.int(size)` bytes of it (aborting on a negative length), the copy is written to the
sink, whose answer is dropped, and nil is returned.  The constituted handle is not
destroyed. -/
def EncodeRGBA (eng : Engine) (w : Writer) (im : image.RGBA) (kind : List Byte) :
    Run (Option Error) :=
  let f := Frame.enter
  let f := f.call .GetExceptionInfo
  let sz := im.Rect.Max
  let f := f.call (.CString .m [82, 71, 66, 65])
  match im.Pix with
  | [] => f.leave (.abort indexOutOfRange)
  | _ :: _ =>
    let img := eng.ConstituteImage (C.ulong sz.X) (C.ulong sz.Y) "RGBA" im.Pix
    let f := f.call (.ConstituteImage (C.ulong sz.X) (C.ulong sz.Y) im.Pix img)
    let f := f.call (.free (some .m))
    match img with
    | some img =>
      let f := f.call .CloneImageInfo
      let f := f.defer .DestroyImageInfo
      let mg := C.CString kind
      let f := f.call (.CString .mg kind)
      let f := f.defer (.free (some .mg))
      let img := setMagick eng.MaxTextExtent img mg
      let f := f.call (.setMagick img mg)
      let data := eng.ImageToBlob img
      let size : Nat := (data.map List.length).getD 0
      let f := f.call (.ImageToBlob img data)
      let f := f.defer (.free (data.map fun _ => Handle.data))
      match C.GoBytes data (C.int size) with
      | none => f.leave (.abort "gobytes: length out of range")
      | some p =>
        let _n := w p
        let f := f.call (.Write p)
        f.leave (.ret none)
    | none => f.leave (.ret (some (errors.New "Unable to constitute image")))

/-! ## The format table and `init` -/

/-- The table `fmts`: format tag and the signature the host dispatcher sniffs for. -/
def fmts : List (String × String) :=
  [("dpx", "SDPX"), ("psd", "8BPS"), ("xcf", "gimp xcf"), ("bmp", "BM")]

/-- Go `image.format`: one registration with the host dispatcher. -/
structure image.format where
  name : String
  magic : String
  decode : Engine → Reader → Run (Option image.RGBA × Option Error)
  decodeConfig : Engine → Reader → Run (image.Config × Option Error)

/-- Go `image.RegisterFormat`: the registration is added to the end of the list. -/
def image.RegisterFormat (formats : List image.format) (name magic : String)
    (decode : Engine → Reader → Run (Option image.RGBA × Option Error))
    (decodeConfig : Engine → Reader → Run (image.Config × Option Error)) :
    List image.format :=
  formats ++ [⟨name, magic, decode, decodeConfig⟩]

/-- The package `init`.  `order` is the order in which `range` visits the entries of the
map `fmts` (Go leaves it unspecified); `formats` is what the host dispatcher holds
before (the registrations of the packages imported for their side effect).  The result is
what it holds after, and the engine calls made. -/
def init (order : List (String × String)) (formats : List image.format) :
    List image.format × List Event :=
  let trace := [Event.InitializeMagick]
  (order.foldl (fun fs kv => image.RegisterFormat fs kv.1 kv.2 Decode DecodeConfig) formats,
    trace)

/-! ## Names for the steps of the operations -/

/-- The error `Decode` and `DecodeConfig` make when the engine returns no image. -/
def errDecode : Error := errors.New "Unable to decode image"

/-- The error `Decode` makes when the engine reports a failed dispatch. -/
def errDispatch : Error := errors.New "Unable to dispatch image"

/-- The error `EncodeRGBA` makes when the engine returns no image. -/
def errConstitute : Error := errors.New "Unable to constitute image"

/-- The image `Decode` allocates for the handle `im`. -/
def Decode.alloc (im : Image) : Option image.RGBA :=
  image.NewRGBA (image.Rect 0 0 (int im.columns) (int im.rows))

/-- The answer of the engine when `Decode` dispatches `im`. -/
def Decode.dispatch (eng : Engine) (im : Image) : Nat × List Byte :=
  eng.DispatchImage im 0 0 im.columns im.rows "RGBA"

/-- The image handle after `EncodeRGBA` has written the format tag into it. -/
def EncodeRGBA.tagged (eng : Engine) (img : Image) (kind : List Byte) : Image :=
  setMagick eng.MaxTextExtent img (C.CString kind)

/-- The handle the engine returns when `EncodeRGBA` constitutes the image `im`. -/
def EncodeRGBA.constituted (eng : Engine) (im : image.RGBA) : Option Image :=
  eng.ConstituteImage (C.ulong im.Rect.Max.X) (C.ulong im.Rect.Max.Y) "RGBA" im.Pix

/-- The length the engine reports with a blob: its size, and the zero the variable was
declared with when the result is null. -/
def EncodeRGBA.size (data : Option (List Byte)) : Nat :=
  (data.map List.length).getD 0

/-! ## Concrete engines and inputs -/

/-- A native handle of a one-pixel image, its `magick` slot zeroed. -/
def onePixel : Image := ⟨1, 1, List.replicate 2053 0, [7, 7]⟩

/-- An engine that accepts everything: every blob is a one-pixel image, dispatch stores a
white pixel, every image encodes to the two bytes `BM`. -/
def okEngine : Engine :=
  { MaxTextExtent := 2053
    BlobToImage := fun _ => some onePixel
    PingBlob := fun _ => some onePixel
    DispatchImage := fun _ _ _ _ _ _ => (1, [255, 255, 255, 255])
    ConstituteImage := fun _ _ _ _ => some onePixel
    ImageToBlob := fun _ => some [66, 77] }

/-- An engine that decodes every blob to a one-pixel image and then fails to dispatch it,
after storing one byte. -/
def noDispatchEngine : Engine :=
  { okEngine with DispatchImage := fun _ _ _ _ _ _ => (0, [255]) }

/-- A native handle that reports no column and no row. -/
def zeroImage : Image := ⟨0, 0, List.replicate 2053 0, []⟩

/-- An engine that decodes every blob to a handle with no column and no row. -/
def zeroEngine : Engine :=
  { okEngine with BlobToImage := fun _ => some zeroImage }

/-- A source that yields the single byte `0` and ends. -/
def oneByte : Reader := .plain [0] none

/-- The image `Decode` returns from `okEngine`. -/
def whitePixel : image.RGBA := ⟨[255, 255, 255, 255], 4, ⟨⟨0, 0⟩, ⟨1, 1⟩⟩⟩

/-- A native handle that reports `2^64 - 1` columns and one row. -/
def wideImage : Image := ⟨18446744073709551615, 1, List.replicate 2053 0, []⟩

/-- An engine that reports `2^64 - 1` columns and one row for every blob, and reports the
dispatch as done. -/
def wideEngine : Engine :=
  { okEngine with
    BlobToImage := fun _ => some wideImage
    PingBlob := fun _ => some wideImage
    DispatchImage := fun _ _ _ _ _ _ => (1, []) }

/-- The image `Decode` returns from `wideEngine`. -/
def shiftedPixel : image.RGBA := ⟨[0, 0, 0, 0], 4, ⟨⟨-1, 0⟩, ⟨0, 1⟩⟩⟩

/-- A buffered reader of the default size that holds the single byte `0`. -/
def oneBuffered : Reader := .buffered 4096 [0] [] none

/-- An engine like `okEngine` whose encoded blob has `n` zero bytes. -/
def bigBlobEngine (n : Nat) : Engine :=
  { okEngine with ImageToBlob := fun _ => some (List.replicate n 0) }

/-- The format tag `bmp`. -/
def bmp : List Byte := [98, 109, 112]

/-- An RGBA image with no pixel: `image.NewRGBA(image.Rect(0, 0, 0, 0))`. -/
def noPixel : image.RGBA := ⟨[], 0, ⟨⟨0, 0⟩, ⟨0, 0⟩⟩⟩

/-! ## The bookkeeping of native resources -/

/-- The native resource a call acquires, if any: an error context, an image-info
context, an image handle (when the engine does not return null), a C string, a blob. -/
def Event.acquires : Event → Option Handle
  | .GetExceptionInfo => some .exc
  | .CloneImageInfo => some .info
  | .BlobToImage _ (some _) => some .im
  | .PingBlob _ (some _) => some .im
  | .ConstituteImage _ _ _ (some _) => some .im
  | .CString v _ => some v
  | .ImageToBlob _ (some _) => some .data
  | _ => none

/-- The native resource a call releases, if any (`free(NULL)` releases nothing). -/
def Event.releases : Event → Option Handle
  | .DestroyImageInfo => some .info
  | .DestroyImage _ => some .im
  | .free p => p
  | _ => none

/-- How many times the handle `h` is acquired in the trace `t`. -/
def acquired (t : List Event) (h : Handle) : Nat :=
  t.countP fun e => e.acquires = some h

/-- How many times the handle `h` is released in the trace `t`. -/
def released (t : List Event) (h : Handle) : Nat :=
  t.countP fun e => e.releases = some h

/-- Every handle acquired in the trace is released in it exactly once. -/
def AllReleasedOnce (t : List Event) : Prop :=
  ∀ h, 0 < acquired t h → released t h = 1

/-- The sink that accepts everything. -/
def okWriter : Writer := fun p => (p.length, none)

/-- The registration `init` makes for one entry of `fmts`. -/
def init.entry (kv : String × String) : image.format :=
  ⟨kv.1, kv.2, Decode, DecodeConfig⟩

/-! ## The paths through `Decode` -/

theorem Decode_read_error (eng : Engine) (r : Reader) (data : List Byte) (e : Error)
    (h : ioutil.ReadAll r = (data, some e)) :
    Decode eng r = ⟨.ret (none, some e), []⟩ := by
  simp [Decode, h, Frame.leave, Frame.enter]

theorem Decode_empty (eng : Engine) (r : Reader) (h : ioutil.ReadAll r = ([], none)) :
    Decode eng r = ⟨.abort indexOutOfRange,
      [.GetExceptionInfo, .CloneImageInfo, .DestroyImageInfo]⟩ := by
  simp [Decode, h, Frame.leave, Frame.enter, Frame.call, Frame.defer]

theorem Decode_null (eng : Engine) (r : Reader) (data : List Byte)
    (h : ioutil.ReadAll r = (data, none)) (hd : data ≠ [])
    (hb : eng.BlobToImage data = none) :
    Decode eng r = ⟨.ret (none, some errDecode),
      [.GetExceptionInfo, .CloneImageInfo, .BlobToImage data none, .DestroyImageInfo]⟩ := by
  cases data with
  | nil => exact absurd rfl hd
  | cons b bs =>
    simp [Decode, h, hb, Frame.leave, Frame.enter, Frame.call, Frame.defer, errDecode]

theorem Decode_huge (eng : Engine) (r : Reader) (data : List Byte) (im : Image)
    (h : ioutil.ReadAll r = (data, none)) (hd : data ≠ [])
    (hb : eng.BlobToImage data = some im) (ha : Decode.alloc im = none) :
    Decode eng r = ⟨.abort "image: NewRGBA Rectangle has huge or negative dimensions",
      [.GetExceptionInfo, .CloneImageInfo, .BlobToImage data (some im),
        .DestroyImageInfo]⟩ := by
  cases data with
  | nil => exact absurd rfl hd
  | cons b bs =>
    simp only [Decode.alloc] at ha
    simp [Decode, h, hb, ha, Frame.leave, Frame.enter, Frame.call, Frame.defer]

theorem Decode_no_pixels (eng : Engine) (r : Reader) (data : List Byte) (im : Image)
    (img : image.RGBA)
    (h : ioutil.ReadAll r = (data, none)) (hd : data ≠ [])
    (hb : eng.BlobToImage data = some im) (ha : Decode.alloc im = some img)
    (hp : img.Pix = []) :
    Decode eng r = ⟨.abort indexOutOfRange,
      [.GetExceptionInfo, .CloneImageInfo, .BlobToImage data (some im),
        .CString .m [82, 71, 66, 65], .free (some .m), .DestroyImageInfo]⟩ := by
  cases data with
  | nil => exact absurd rfl hd
  | cons b bs =>
    simp only [Decode.alloc] at ha
    simp [Decode, h, hb, ha, hp, Frame.leave, Frame.enter, Frame.call, Frame.defer]

theorem Decode_dispatch_failed (eng : Engine) (r : Reader) (data : List Byte) (im : Image)
    (img : image.RGBA)
    (h : ioutil.ReadAll r = (data, none)) (hd : data ≠ [])
    (hb : eng.BlobToImage data = some im) (ha : Decode.alloc im = some img)
    (hp : img.Pix ≠ []) (hs : (Decode.dispatch eng im).1 = 0) :
    Decode eng r = ⟨.ret (none, some errDispatch),
      [.GetExceptionInfo, .CloneImageInfo, .BlobToImage data (some im),
        .CString .m [82, 71, 66, 65], .DispatchImage im im.columns im.rows 0,
        .DestroyImage im, .free (some .m), .DestroyImageInfo]⟩ := by
  cases data with
  | nil => exact absurd rfl hd
  | cons b bs =>
    cases hpix : img.Pix with
    | nil => exact absurd hpix hp
    | cons p ps =>
      simp only [Decode.alloc] at ha
      simp only [Decode.dispatch] at hs
      simp [Decode, h, hb, ha, hpix, hs, Frame.leave, Frame.enter, Frame.call, Frame.defer,
        errDispatch]

theorem Decode_dispatched (eng : Engine) (r : Reader) (data : List Byte) (im : Image)
    (img : image.RGBA)
    (h : ioutil.ReadAll r = (data, none)) (hd : data ≠ [])
    (hb : eng.BlobToImage data = some im) (ha : Decode.alloc im = some img)
    (hp : img.Pix ≠ []) (hs : (Decode.dispatch eng im).1 ≠ 0) :
    Decode eng r =
      ⟨.ret (some { img with Pix := store img.Pix (Decode.dispatch eng im).2 }, none),
      [.GetExceptionInfo, .CloneImageInfo, .BlobToImage data (some im),
        .CString .m [82, 71, 66, 65],
        .DispatchImage im im.columns im.rows (Decode.dispatch eng im).1,
        .DestroyImage im, .free (some .m), .DestroyImageInfo]⟩ := by
  cases data with
  | nil => exact absurd rfl hd
  | cons b bs =>
    cases hpix : img.Pix with
    | nil => exact absurd hpix hp
    | cons p ps =>
      simp only [Decode.alloc] at ha
      simp only [Decode.dispatch] at hs
      simp [Decode, h, hb, ha, hpix, hs, Frame.leave, Frame.enter, Frame.call, Frame.defer,
        Decode.dispatch]

/-- Every run of `Decode` follows one of seven paths. -/
theorem Decode_cases (eng : Engine) (r : Reader) :
    (∃ data e, ioutil.ReadAll r = (data, some e) ∧
      Decode eng r = ⟨.ret (none, some e), []⟩) ∨
    (ioutil.ReadAll r = ([], none) ∧
      Decode eng r = ⟨.abort indexOutOfRange,
        [.GetExceptionInfo, .CloneImageInfo, .DestroyImageInfo]⟩) ∨
    (∃ data, ioutil.ReadAll r = (data, none) ∧ data ≠ [] ∧ eng.BlobToImage data = none ∧
      Decode eng r = ⟨.ret (none, some errDecode),
        [.GetExceptionInfo, .CloneImageInfo, .BlobToImage data none, .DestroyImageInfo]⟩) ∨
    (∃ data im, ioutil.ReadAll r = (data, none) ∧ data ≠ [] ∧
      eng.BlobToImage data = some im ∧ Decode.alloc im = none ∧
      Decode eng r = ⟨.abort "image: NewRGBA Rectangle has huge or negative dimensions",
        [.GetExceptionInfo, .CloneImageInfo, .BlobToImage data (some im),
          .DestroyImageInfo]⟩) ∨
    (∃ data im img, ioutil.ReadAll r = (data, none) ∧ data ≠ [] ∧
      eng.BlobToImage data = some im ∧ Decode.alloc im = some img ∧ img.Pix = [] ∧
      Decode eng r = ⟨.abort indexOutOfRange,
        [.GetExceptionInfo, .CloneImageInfo, .BlobToImage data (some im),
          .CString .m [82, 71, 66, 65], .free (some .m), .DestroyImageInfo]⟩) ∨
    (∃ data im img, ioutil.ReadAll r = (data, none) ∧ data ≠ [] ∧
      eng.BlobToImage data = some im ∧ Decode.alloc im = some img ∧ img.Pix ≠ [] ∧
      (Decode.dispatch eng im).1 = 0 ∧
      Decode eng r = ⟨.ret (none, some errDispatch),
        [.GetExceptionInfo, .CloneImageInfo, .BlobToImage data (some im),
          .CString .m [82, 71, 66, 65], .DispatchImage im im.columns im.rows 0,
          .DestroyImage im, .free (some .m), .DestroyImageInfo]⟩) ∨
    (∃ data im img, ioutil.ReadAll r = (data, none) ∧ data ≠ [] ∧
      eng.BlobToImage data = some im ∧ Decode.alloc im = some img ∧ img.Pix ≠ [] ∧
      (Decode.dispatch eng im).1 ≠ 0 ∧
      Decode eng r =
        ⟨.ret (some { img with Pix := store img.Pix (Decode.dispatch eng im).2 }, none),
        [.GetExceptionInfo, .CloneImageInfo, .BlobToImage data (some im),
          .CString .m [82, 71, 66, 65],
          .DispatchImage im im.columns im.rows (Decode.dispatch eng im).1,
          .DestroyImage im, .free (some .m), .DestroyImageInfo]⟩) := by
  rcases hr : ioutil.ReadAll r with ⟨data, _ | e⟩
  · by_cases hd : data = []
    · subst hd
      exact Or.inr (Or.inl ⟨rfl, Decode_empty eng r hr⟩)
    · rcases hb : eng.BlobToImage data with _ | im
      · exact Or.inr (Or.inr (Or.inl ⟨data, rfl, hd, hb, Decode_null eng r data hr hd hb⟩))
      · rcases ha : Decode.alloc im with _ | img
        · exact Or.inr (Or.inr (Or.inr (Or.inl
            ⟨data, im, rfl, hd, hb, ha, Decode_huge eng r data im hr hd hb ha⟩)))
        · by_cases hp : img.Pix = []
          · exact Or.inr (Or.inr (Or.inr (Or.inr (Or.inl
              ⟨data, im, img, rfl, hd, hb, ha, hp,
                Decode_no_pixels eng r data im img hr hd hb ha hp⟩))))
          · by_cases hs : (Decode.dispatch eng im).1 = 0
            · exact Or.inr (Or.inr (Or.inr (Or.inr (Or.inr (Or.inl
                ⟨data, im, img, rfl, hd, hb, ha, hp, hs,
                  Decode_dispatch_failed eng r data im img hr hd hb ha hp hs⟩)))))
            · exact Or.inr (Or.inr (Or.inr (Or.inr (Or.inr (Or.inr
                ⟨data, im, img, rfl, hd, hb, ha, hp, hs,
                  Decode_dispatched eng r data im img hr hd hb ha hp hs⟩)))))
  · exact Or.inl ⟨data, e, rfl, Decode_read_error eng r data e hr⟩

/-- `Decode` returns, rather than being aborted, exactly when the read fails, or
something was read and the engine either returns null or returns a handle for which a
non-empty pixel buffer can be allocated. -/
theorem Decode_returns_iff (eng : Engine) (r : Reader) :
    (∃ v, (Decode eng r).result = .ret v) ↔
      ((ioutil.ReadAll r).2 ≠ none ∨
        ((ioutil.ReadAll r).1 ≠ [] ∧
          ∀ im, eng.BlobToImage (ioutil.ReadAll r).1 = some im →
            ∃ img, Decode.alloc im = some img ∧ img.Pix ≠ [])) := by
  rcases Decode_cases eng r with ⟨d, e, hr, hD⟩ | ⟨hr, hD⟩ | ⟨d, hr, hd, hb, hD⟩ |
    ⟨d, im, hr, hd, hb, ha, hD⟩ | ⟨d, im, img, hr, hd, hb, ha, hp, hD⟩ |
    ⟨d, im, img, hr, hd, hb, ha, hp, _, hD⟩ | ⟨d, im, img, hr, hd, hb, ha, hp, _, hD⟩
  · simp [hD, hr]
  · simp [hD, hr]
  · simp [hD, hr, hd, hb]
  · simp [hD, hr, hd, hb, ha]
  · simp [hD, hr, hd, hb, ha, hp]
  · simp [hD, hr, hd, hb, ha, hp]
  · simp [hD, hr, hd, hb, ha, hp]

/-! ## The paths through `DecodeConfig` -/

/-- Peeking at exactly what is buffered gives the buffered bytes and no error. -/
theorem bufio.Reader.Peek_Buffered (b : bufio.Reader) :
    b.Peek b.Buffered = (b.buf, none) := by
  simp [bufio.Reader.Peek, bufio.Reader.Buffered]

theorem DecodeConfig_empty (eng : Engine) (r : Reader) (h : (bufio.NewReader r).buf = []) :
    DecodeConfig eng r = ⟨.abort indexOutOfRange,
      [.GetExceptionInfo, .CloneImageInfo, .DestroyImageInfo]⟩ := by
  have hp := bufio.Reader.Peek_Buffered (bufio.NewReader r)
  rw [h] at hp
  simp [DecodeConfig, hp, Frame.leave, Frame.enter, Frame.call, Frame.defer]

theorem DecodeConfig_null (eng : Engine) (r : Reader) (h : (bufio.NewReader r).buf ≠ [])
    (hb : eng.PingBlob (bufio.NewReader r).buf = none) :
    DecodeConfig eng r = ⟨.ret (⟨none, 0, 0⟩, some errDecode),
      [.GetExceptionInfo, .CloneImageInfo, .PingBlob (bufio.NewReader r).buf none,
        .DestroyImageInfo]⟩ := by
  have hp := bufio.Reader.Peek_Buffered (bufio.NewReader r)
  cases hbuf : (bufio.NewReader r).buf with
  | nil => exact absurd hbuf h
  | cons c cs =>
    rw [hbuf] at hp hb
    have hl : (bufio.NewReader r).Buffered = cs.length + 1 := by
      simp [bufio.Reader.Buffered, hbuf]
    rw [hl] at hp
    simp [DecodeConfig, hp, hl, hb, Frame.leave, Frame.enter, Frame.call, Frame.defer,
      errDecode]

theorem DecodeConfig_pinged (eng : Engine) (r : Reader) (im : Image)
    (h : (bufio.NewReader r).buf ≠ [])
    (hb : eng.PingBlob (bufio.NewReader r).buf = some im) :
    DecodeConfig eng r =
      ⟨.ret (⟨some color.Model.RGBAModel, int im.columns, int im.rows⟩, none),
      [.GetExceptionInfo, .CloneImageInfo, .PingBlob (bufio.NewReader r).buf (some im),
        .DestroyImage im, .DestroyImageInfo]⟩ := by
  have hp := bufio.Reader.Peek_Buffered (bufio.NewReader r)
  cases hbuf : (bufio.NewReader r).buf with
  | nil => exact absurd hbuf h
  | cons c cs =>
    rw [hbuf] at hp hb
    have hl : (bufio.NewReader r).Buffered = cs.length + 1 := by
      simp [bufio.Reader.Buffered, hbuf]
    rw [hl] at hp
    simp [DecodeConfig, hp, hl, hb, Frame.leave, Frame.enter, Frame.call, Frame.defer]

/-! ## The paths through `EncodeRGBA` -/

theorem EncodeRGBA_no_pixels (eng : Engine) (w : Writer) (im : image.RGBA)
    (kind : List Byte) (h : im.Pix = []) :
    EncodeRGBA eng w im kind = ⟨.abort indexOutOfRange,
      [.GetExceptionInfo, .CString .m [82, 71, 66, 65]]⟩ := by
  simp [EncodeRGBA, h, Frame.leave, Frame.enter, Frame.call]

theorem EncodeRGBA_null (eng : Engine) (w : Writer) (im : image.RGBA)
    (kind : List Byte) (h : im.Pix ≠ []) (hc : EncodeRGBA.constituted eng im = none) :
    EncodeRGBA eng w im kind = ⟨.ret (some errConstitute),
      [.GetExceptionInfo, .CString .m [82, 71, 66, 65],
        .ConstituteImage (C.ulong im.Rect.Max.X) (C.ulong im.Rect.Max.Y) im.Pix none,
        .free (some .m)]⟩ := by
  cases hpix : im.Pix with
  | nil => exact absurd hpix h
  | cons p ps =>
    simp only [EncodeRGBA.constituted, hpix] at hc
    simp [EncodeRGBA, hpix, hc, Frame.leave, Frame.enter, Frame.call, errConstitute]

theorem EncodeRGBA_out_of_range (eng : Engine) (w : Writer) (im : image.RGBA)
    (kind : List Byte) (img : Image) (h : im.Pix ≠ [])
    (hc : EncodeRGBA.constituted eng im = some img)
    (hg : C.GoBytes (eng.ImageToBlob (EncodeRGBA.tagged eng img kind))
      (C.int (EncodeRGBA.size (eng.ImageToBlob (EncodeRGBA.tagged eng img kind)))) = none) :
    EncodeRGBA eng w im kind = ⟨.abort "gobytes: length out of range",
      [.GetExceptionInfo, .CString .m [82, 71, 66, 65],
        .ConstituteImage (C.ulong im.Rect.Max.X) (C.ulong im.Rect.Max.Y) im.Pix (some img),
        .free (some .m), .CloneImageInfo, .CString .mg kind,
        .setMagick (EncodeRGBA.tagged eng img kind) (C.CString kind),
        .ImageToBlob (EncodeRGBA.tagged eng img kind)
          (eng.ImageToBlob (EncodeRGBA.tagged eng img kind)),
        .free ((eng.ImageToBlob (EncodeRGBA.tagged eng img kind)).map fun _ => Handle.data),
        .free (some .mg), .DestroyImageInfo]⟩ := by
  cases hpix : im.Pix with
  | nil => exact absurd hpix h
  | cons p ps =>
    simp only [EncodeRGBA.constituted, hpix] at hc
    simp only [EncodeRGBA.tagged, EncodeRGBA.size] at hg
    simp [EncodeRGBA, hpix, hc, hg, Frame.leave, Frame.enter, Frame.call, Frame.defer,
      EncodeRGBA.tagged]

theorem EncodeRGBA_written (eng : Engine) (w : Writer) (im : image.RGBA)
    (kind : List Byte) (img : Image) (p : List Byte) (h : im.Pix ≠ [])
    (hc : EncodeRGBA.constituted eng im = some img)
    (hg : C.GoBytes (eng.ImageToBlob (EncodeRGBA.tagged eng img kind))
      (C.int (EncodeRGBA.size (eng.ImageToBlob (EncodeRGBA.tagged eng img kind)))) = some p) :
    EncodeRGBA eng w im kind = ⟨.ret none,
      [.GetExceptionInfo, .CString .m [82, 71, 66, 65],
        .ConstituteImage (C.ulong im.Rect.Max.X) (C.ulong im.Rect.Max.Y) im.Pix (some img),
        .free (some .m), .CloneImageInfo, .CString .mg kind,
        .setMagick (EncodeRGBA.tagged eng img kind) (C.CString kind),
        .ImageToBlob (EncodeRGBA.tagged eng img kind)
          (eng.ImageToBlob (EncodeRGBA.tagged eng img kind)),
        .Write p,
        .free ((eng.ImageToBlob (EncodeRGBA.tagged eng img kind)).map fun _ => Handle.data),
        .free (some .mg), .DestroyImageInfo]⟩ := by
  cases hpix : im.Pix with
  | nil => exact absurd hpix h
  | cons q qs =>
    simp only [EncodeRGBA.constituted, hpix] at hc
    simp only [EncodeRGBA.tagged, EncodeRGBA.size] at hg
    simp [EncodeRGBA, hpix, hc, hg, Frame.leave, Frame.enter, Frame.call, Frame.defer,
      EncodeRGBA.tagged]

/-- Every run of `EncodeRGBA` follows one of four paths. -/
theorem EncodeRGBA_cases (eng : Engine) (w : Writer) (im : image.RGBA) (kind : List Byte) :
    (im.Pix = [] ∧
      EncodeRGBA eng w im kind = ⟨.abort indexOutOfRange,
        [.GetExceptionInfo, .CString .m [82, 71, 66, 65]]⟩) ∨
    (im.Pix ≠ [] ∧ EncodeRGBA.constituted eng im = none ∧
      EncodeRGBA eng w im kind = ⟨.ret (some errConstitute),
        [.GetExceptionInfo, .CString .m [82, 71, 66, 65],
          .ConstituteImage (C.ulong im.Rect.Max.X) (C.ulong im.Rect.Max.Y) im.Pix none,
          .free (some .m)]⟩) ∨
    (∃ img, im.Pix ≠ [] ∧ EncodeRGBA.constituted eng im = some img ∧
      C.GoBytes (eng.ImageToBlob (EncodeRGBA.tagged eng img kind))
        (C.int (EncodeRGBA.size (eng.ImageToBlob (EncodeRGBA.tagged eng img kind)))) = none ∧
      EncodeRGBA eng w im kind = ⟨.abort "gobytes: length out of range",
        [.GetExceptionInfo, .CString .m [82, 71, 66, 65],
          .ConstituteImage (C.ulong im.Rect.Max.X) (C.ulong im.Rect.Max.Y) im.Pix (some img),
          .free (some .m), .CloneImageInfo, .CString .mg kind,
          .setMagick (EncodeRGBA.tagged eng img kind) (C.CString kind),
          .ImageToBlob (EncodeRGBA.tagged eng img kind)
            (eng.ImageToBlob (EncodeRGBA.tagged eng img kind)),
          .free ((eng.ImageToBlob (EncodeRGBA.tagged eng img kind)).map fun _ => Handle.data),
          .free (some .mg), .DestroyImageInfo]⟩) ∨
    (∃ img p, im.Pix ≠ [] ∧ EncodeRGBA.constituted eng im = some img ∧
      C.GoBytes (eng.ImageToBlob (EncodeRGBA.tagged eng img kind))
        (C.int (EncodeRGBA.size (eng.ImageToBlob (EncodeRGBA.tagged eng img kind)))) =
        some p ∧
      EncodeRGBA eng w im kind = ⟨.ret none,
        [.GetExceptionInfo, .CString .m [82, 71, 66, 65],
          .ConstituteImage (C.ulong im.Rect.Max.X) (C.ulong im.Rect.Max.Y) im.Pix (some img),
          .free (some .m), .CloneImageInfo, .CString .mg kind,
          .setMagick (EncodeRGBA.tagged eng img kind) (C.CString kind),
          .ImageToBlob (EncodeRGBA.tagged eng img kind)
            (eng.ImageToBlob (EncodeRGBA.tagged eng img kind)),
          .Write p,
          .free ((eng.ImageToBlob (EncodeRGBA.tagged eng img kind)).map fun _ => Handle.data),
          .free (some .mg), .DestroyImageInfo]⟩) := by
  by_cases hp : im.Pix = []
  · exact Or.inl ⟨hp, EncodeRGBA_no_pixels eng w im kind hp⟩
  · rcases hc : EncodeRGBA.constituted eng im with _ | img
    · exact Or.inr (Or.inl ⟨hp, rfl, EncodeRGBA_null eng w im kind hp hc⟩)
    · rcases hg : C.GoBytes (eng.ImageToBlob (EncodeRGBA.tagged eng img kind))
        (C.int (EncodeRGBA.size (eng.ImageToBlob (EncodeRGBA.tagged eng img kind))))
        with _ | p
      · exact Or.inr (Or.inr (Or.inl
          ⟨img, hp, rfl, hg, EncodeRGBA_out_of_range eng w im kind img hp hc hg⟩))
      · exact Or.inr (Or.inr (Or.inr
          ⟨img, p, hp, rfl, hg, EncodeRGBA_written eng w im kind img p hp hc hg⟩))

/-- When `EncodeRGBA` returns, its error is non-nil exactly if the constitute step
returned null; the error is then "Unable to constitute image" and nothing is written. -/
theorem EncodeRGBA_error_iff (eng : Engine) (w : Writer) (im : image.RGBA)
    (kind : List Byte) (e : Error) :
    ((EncodeRGBA eng w im kind).result = .ret (some e) ↔
      im.Pix ≠ [] ∧ EncodeRGBA.constituted eng im = none ∧
        e = errors.New "Unable to constitute image") ∧
    ((EncodeRGBA eng w im kind).result = .ret (some e) →
      ∀ p, Event.Write p ∉ (EncodeRGBA eng w im kind).trace) := by
  rcases EncodeRGBA_cases eng w im kind with ⟨hp, hE⟩ | ⟨hp, hc, hE⟩ |
    ⟨img, hp, hc, _, hE⟩ | ⟨img, p, hp, hc, _, hE⟩
  · simp [hE, hp]
  · simp [hE, hp, hc, errConstitute, eq_comm]
  · simp [hE, hp, hc]
  · simp [hE, hp, hc]

/-! ## C1 -/

theorem Decode_okEngine :
    Decode okEngine oneByte = ⟨.ret (some whitePixel, none),
      [.GetExceptionInfo, .CloneImageInfo, .BlobToImage [0] (some onePixel),
        .CString .m [82, 71, 66, 65], .DispatchImage onePixel 1 1 1,
        .DestroyImage onePixel, .free (some .m), .DestroyImageInfo]⟩ := by
  rfl

/-- C1: whenever `Decode` returns, exactly one of the image and the error is non-nil:
it never returns an image together with an error, and never returns neither. -/
theorem Decode_image_xor_error (eng : Engine) (r : Reader) (out : Option image.RGBA)
    (err : Option Error) (h : (Decode eng r).result = .ret (out, err)) :
    (out ≠ none ∧ err = none) ∨ (out = none ∧ err ≠ none) := by
  rcases Decode_cases eng r with ⟨d, e, _, hD⟩ | ⟨_, hD⟩ | ⟨d, _, _, _, hD⟩ |
    ⟨d, im, _, _, _, _, hD⟩ | ⟨d, im, img, _, _, _, _, _, hD⟩ |
    ⟨d, im, img, _, _, _, _, _, _, hD⟩ | ⟨d, im, img, _, _, _, _, _, _, hD⟩ <;>
  rw [hD] at h <;> simp at h <;> obtain ⟨rfl, rfl⟩ := h <;> simp

theorem Decode_image_xor_error_witness :
    (Decode okEngine oneByte).result = .ret (some whitePixel, none) ∧
    ((some whitePixel ≠ none ∧ (none : Option Error) = none) ∨
      (some whitePixel = none ∧ (none : Option Error) ≠ none)) :=
  ⟨by rw [Decode_okEngine],
    Decode_image_xor_error okEngine oneByte _ _ (by rw [Decode_okEngine])⟩

/-! ## C2 -/

theorem Decode_noDispatchEngine :
    Decode noDispatchEngine oneByte = ⟨.ret (none, some errDispatch),
      [.GetExceptionInfo, .CloneImageInfo, .BlobToImage [0] (some onePixel),
        .CString .m [82, 71, 66, 65], .DispatchImage onePixel 1 1 0,
        .DestroyImage onePixel, .free (some .m), .DestroyImageInfo]⟩ := by
  rfl

theorem Decode_zeroEngine :
    Decode zeroEngine oneByte = ⟨.abort indexOutOfRange,
      [.GetExceptionInfo, .CloneImageInfo, .BlobToImage [0] (some zeroImage),
        .CString .m [82, 71, 66, 65], .free (some .m), .DestroyImageInfo]⟩ := by
  rfl

/-- C2 (the code at the failing inputs): `Decode` is aborted although no step failed.
From a source of one byte and an engine whose blob decode returns a handle with no
column and no row, the read succeeds, the handle is not null and no dispatch reports
anything, for none is made: the run time aborts at `&img.Pix[0]`.  From a source that
yields nothing and ends without error, whatever the engine, the read succeeds and no
blob decode is made: the run time aborts at `&data[0]`.  In neither case is a nil error
returned. -/
theorem Decode_aborts_with_no_failing_step (eng : Engine) :
    ((ioutil.ReadAll oneByte).2 = none ∧
      zeroEngine.BlobToImage (ioutil.ReadAll oneByte).1 = some zeroImage ∧
      (∀ im c w s, Event.DispatchImage im c w s ∉ (Decode zeroEngine oneByte).trace) ∧
      (Decode zeroEngine oneByte).result = .abort indexOutOfRange) ∧
    ((ioutil.ReadAll (.plain [] none)).2 = none ∧
      (∀ data ret, Event.BlobToImage data ret ∉ (Decode eng (.plain [] none)).trace) ∧
      (Decode eng (.plain [] none)).result = .abort indexOutOfRange) := by
  refine ⟨⟨rfl, rfl, ?_, ?_⟩, ⟨rfl, ?_, ?_⟩⟩
  · intro im c w s
    rw [Decode_zeroEngine]
    simp only [List.mem_cons, reduceCtorEq, List.mem_nil_iff, or_self, not_false_eq_true]
  · rw [Decode_zeroEngine]
  · intro data ret
    rw [Decode_empty eng (.plain [] none) rfl]
    simp only [List.mem_cons, reduceCtorEq, List.mem_nil_iff, or_self, not_false_eq_true]
  · rw [Decode_empty eng (.plain [] none) rfl]

/-! ## C3 -/

/-- C3 (the code at the failing inputs): on a source that yields no byte `Decode` is
aborted by the run time at `&data[0]`, whatever the engine; and so is `DecodeConfig` on
every source that is not a buffered reader (its fresh buffer holds nothing) and on every
buffered reader that holds nothing.  Neither returns an error. -/
theorem Decode_and_DecodeConfig_abort_on_empty (eng : Engine) :
    (Decode eng (.plain [] none)).result = .abort indexOutOfRange ∧
    (Decode eng (.buffered 4096 [] [] none)).result = .abort indexOutOfRange ∧
    (∀ data err, (DecodeConfig eng (.plain data err)).result = .abort indexOutOfRange) ∧
    (∀ size data err,
      (DecodeConfig eng (.buffered size [] data err)).result = .abort indexOutOfRange) := by
  refine ⟨?_, ?_, ?_, ?_⟩
  · rw [Decode_empty eng (.plain [] none) rfl]
  · rw [Decode_empty eng (.buffered 4096 [] [] none) rfl]
  · intro data err
    rw [DecodeConfig_empty eng (.plain data err) rfl]
  · intro size data err
    rw [DecodeConfig_empty eng (.buffered size [] data err)
      (by simp only [bufio.NewReader]; split <;> rfl)]

/-! ## C4 -/

theorem int_eq_self {x : Int} (h0 : 0 ≤ x) (h1 : x < 9223372036854775808) : int x = x := by
  unfold int
  omega

theorem store_length (buf bytes : List Byte) : (store buf bytes).length = buf.length := by
  simp only [store, List.length_take, List.length_append, List.length_drop]
  omega

theorem mul3NonNeg_four {y z : Int} (hy : 0 ≤ y) (hz : 0 ≤ z)
    (h : ¬ image.mul3NonNeg 4 y z < 0) :
    image.mul3NonNeg 4 y z = 4 * y * z ∧ 4 * y * z < 9223372036854775808 := by
  unfold image.mul3NonNeg at h ⊢
  unfold int at h ⊢
  have hyz : 0 ≤ 4 * y * z := Int.mul_nonneg (by omega) hz
  split_ifs at h ⊢ <;> omega

theorem Decode.alloc_bounds (im : Image) (img : image.RGBA)
    (ha : Decode.alloc im = some img)
    (hc : im.columns < 9223372036854775808) (hr : im.rows < 9223372036854775808)
    (hp : img.Pix ≠ []) :
    img.Rect = ⟨⟨0, 0⟩, ⟨im.columns, im.rows⟩⟩ ∧
    img.Pix.length = im.columns * im.rows * 4 ∧
    img.Stride = 4 * im.columns := by
  have hci : int (im.columns : Int) = im.columns := int_eq_self (by omega) (by omega)
  have hri : int (im.rows : Int) = im.rows := int_eq_self (by omega) (by omega)
  have hc0 : ¬ (0 : Int) > (im.columns : Int) := by omega
  have hr0 : ¬ (0 : Int) > (im.rows : Int) := by omega
  have hrect : image.Rect 0 0 (int im.columns) (int im.rows) =
      ⟨⟨0, 0⟩, ⟨im.columns, im.rows⟩⟩ := by
    rw [hci, hri]
    simp only [image.Rect, hc0, hr0, if_false]
  unfold Decode.alloc at ha
  rw [hrect] at ha
  unfold image.NewRGBA at ha
  simp only [image.Rectangle.Dx, image.Rectangle.Dy, sub_zero, hci, hri] at ha
  split at ha
  · exact absurd ha (by simp)
  · rename_i hn
    obtain ⟨hm, hlt⟩ := mul3NonNeg_four (Int.natCast_nonneg _) (Int.natCast_nonneg _) hn
    rw [hm] at ha
    have hcast : (4 * (im.columns : Int) * (im.rows : Int)) =
        ((im.columns * im.rows * 4 : Nat) : Int) := by
      push_cast
      ring
    rw [hcast, Int.toNat_ofNat] at ha
    simp only [Option.some.injEq] at ha
    subst ha
    simp only [ne_eq, List.replicate_eq_nil_iff] at hp
    refine ⟨rfl, by simp, ?_⟩
    show int (4 * (im.columns : Int)) = 4 * (im.columns : Int)
    have hrow : 1 ≤ im.rows := by
      rcases Nat.eq_zero_or_pos im.rows with h0 | h0
      · rw [h0] at hp
        exact absurd rfl hp
      · exact h0
    have hle : 4 * im.columns ≤ im.columns * im.rows * 4 := by
      calc 4 * im.columns = im.columns * 1 * 4 := by ring
        _ ≤ im.columns * im.rows * 4 :=
          Nat.mul_le_mul_right 4 (Nat.mul_le_mul_left im.columns hrow)
    rw [hcast] at hlt
    exact int_eq_self (by omega) (by omega)

theorem mul3NonNeg_zero (x y z : Int) (h : y = 0 ∨ z = 0) : image.mul3NonNeg x y z ≤ 0 := by
  have h0 : x * y * z = 0 := by
    rcases h with rfl | rfl <;> simp
  have hi : int 0 = 0 := by decide
  unfold image.mul3NonNeg
  rw [h0, hi]
  split_ifs <;> omega

theorem Decode.alloc_zero (im : Image) (img : image.RGBA)
    (hz : im.columns = 0 ∨ im.rows = 0) (ha : Decode.alloc im = some img) :
    img.Pix = [] := by
  have hi : int 0 = 0 := by decide
  have hd : (image.Rect 0 0 (int im.columns) (int im.rows)).Dx = 0 ∨
      (image.Rect 0 0 (int im.columns) (int im.rows)).Dy = 0 := by
    rcases hz with h | h
    · left
      rw [h]
      simp only [Nat.cast_zero, hi, image.Rect, image.Rectangle.Dx, gt_iff_lt, lt_self_iff_false,
        if_false, sub_self]
    · right
      rw [h]
      simp only [Nat.cast_zero, hi, image.Rect, image.Rectangle.Dy, gt_iff_lt, lt_self_iff_false,
        if_false, sub_self]
  have hm := mul3NonNeg_zero 4 _ _ hd
  unfold Decode.alloc image.NewRGBA at ha
  simp only at ha
  split at ha
  · exact absurd ha (by simp)
  · rename_i hn
    simp only [Option.some.injEq] at ha
    subst ha
    have : image.mul3NonNeg 4 (image.Rect 0 0 (int im.columns) (int im.rows)).Dx
        (image.Rect 0 0 (int im.columns) (int im.rows)).Dy = 0 := by omega
    simp [this]

/-- When the engine reports no column or no row, `Decode` does not return: it is aborted
when the image is allocated, or at `&img.Pix[0]`. -/
theorem Decode_zero_area_aborts (eng : Engine) (r : Reader) (data : List Byte) (im : Image)
    (hr : ioutil.ReadAll r = (data, none)) (hd : data ≠ [])
    (hb : eng.BlobToImage data = some im) (hz : im.columns = 0 ∨ im.rows = 0) :
    ∃ why, (Decode eng r).result = .abort why := by
  rcases ha : Decode.alloc im with _ | img
  · exact ⟨_, by rw [Decode_huge eng r data im hr hd hb ha]⟩
  · exact ⟨_, by rw [Decode_no_pixels eng r data im img hr hd hb ha
      (Decode.alloc_zero im img hz ha)]⟩

theorem Decode_wideEngine :
    (Decode wideEngine oneByte).result = .ret (some shiftedPixel, none) := by
  rfl

/-- C4 as stated fails: with an engine that reports `2^64 - 1` columns and one row,
`Decode` succeeds with an image whose bounds are not `(0,0)-(w,h)`. -/
theorem Decode_bounds_counterexample :
    ¬ (∀ (eng : Engine) (r : Reader) (im : Image) (img : image.RGBA),
        eng.BlobToImage (ioutil.ReadAll r).1 = some im →
        (Decode eng r).result = .ret (some img, none) →
        img.Rect = ⟨⟨0, 0⟩, ⟨im.columns, im.rows⟩⟩ ∧
        img.Pix.length = im.columns * im.rows * 4 ∧
        img.Stride = 4 * im.columns) := by
  intro h
  have h1 := (h wideEngine oneByte wideImage shiftedPixel rfl Decode_wideEngine).1
  exact absurd h1 (by decide)

/-- C4, amended: whenever `Decode` succeeds and the column and row counts `w` and `h` the
engine reported are below `2^63`, the image has bounds `(0,0)-(w,h)`, its pixel buffer has
`w*h*4` bytes and its stride is `4*w`. -/
theorem Decode_bounds (eng : Engine) (r : Reader) (im : Image) (img : image.RGBA)
    (hb : eng.BlobToImage (ioutil.ReadAll r).1 = some im)
    (h : (Decode eng r).result = .ret (some img, none))
    (hc : im.columns < 9223372036854775808) (hr : im.rows < 9223372036854775808) :
    img.Rect = ⟨⟨0, 0⟩, ⟨im.columns, im.rows⟩⟩ ∧
    img.Pix.length = im.columns * im.rows * 4 ∧
    img.Stride = 4 * im.columns := by
  rcases Decode_cases eng r with ⟨d, e, _, hD⟩ | ⟨_, hD⟩ | ⟨d, _, _, _, hD⟩ |
    ⟨d, im1, _, _, _, _, hD⟩ | ⟨d, im1, img1, _, _, _, _, _, hD⟩ |
    ⟨d, im1, img1, _, _, _, _, _, _, hD⟩ | ⟨d, im1, img1, hr1, _, hb1, ha, hp, _, hD⟩ <;>
  rw [hD] at h <;> simp only [Outcome.ret.injEq, Prod.mk.injEq, reduceCtorEq, and_false,
    false_and, Option.some.injEq, and_true] at h
  rw [hr1] at hb
  simp only [hb1, Option.some.injEq] at hb
  subst hb
  subst h
  have hspec := Decode.alloc_bounds im1 img1 ha hc hr hp
  exact ⟨hspec.1, by simpa [store_length] using hspec.2.1, hspec.2.2⟩

theorem Decode_bounds_witness :
    okEngine.BlobToImage (ioutil.ReadAll oneByte).1 = some onePixel ∧
    (Decode okEngine oneByte).result = .ret (some whitePixel, none) ∧
    whitePixel.Rect = ⟨⟨0, 0⟩, ⟨onePixel.columns, onePixel.rows⟩⟩ ∧
    whitePixel.Pix.length = onePixel.columns * onePixel.rows * 4 ∧
    whitePixel.Stride = 4 * onePixel.columns :=
  ⟨rfl, by rw [Decode_okEngine],
    Decode_bounds okEngine oneByte onePixel whitePixel rfl (by rw [Decode_okEngine])
      (by decide) (by decide)⟩

/-! ## C5 -/

theorem DecodeConfig_wideEngine :
    (DecodeConfig wideEngine oneBuffered).result =
      .ret (⟨some color.Model.RGBAModel, -1, 1⟩, none) := by
  rfl

/-- C5 as stated fails: from an engine that reports `2^64 - 1` columns, `DecodeConfig`
returns a width that is not the reported column count (it is `-1`). -/
theorem DecodeConfig_descriptor_counterexample :
    ¬ (∀ (eng : Engine) (r : Reader) (im : Image), (bufio.NewReader r).buf ≠ [] →
        eng.PingBlob (bufio.NewReader r).buf = some im →
        (DecodeConfig eng r).result =
          .ret (⟨some color.Model.RGBAModel, im.columns, im.rows⟩, none)) := by
  intro h
  have h1 := h wideEngine oneBuffered wideImage (by decide) rfl
  rw [DecodeConfig_wideEngine] at h1
  exact absurd h1 (by decide)

/-- C5, amended: for a source whose buffered bytes are not empty, the only probe call
`DecodeConfig` makes is on exactly those bytes.  If the engine returns a handle, the result
is a nil error and a descriptor with the RGBA colour model whose width and height are the
reported columns and rows converted to `int`, which are the reported values whenever they
are below `2^63`.  If the engine returns null, the result is the zero descriptor and the
error "Unable to decode image". -/
theorem DecodeConfig_descriptor (eng : Engine) (r : Reader)
    (h : (bufio.NewReader r).buf ≠ []) :
    (∀ data ret, Event.PingBlob data ret ∈ (DecodeConfig eng r).trace ↔
      data = (bufio.NewReader r).buf ∧ ret = eng.PingBlob (bufio.NewReader r).buf) ∧
    (∀ im, eng.PingBlob (bufio.NewReader r).buf = some im →
      (DecodeConfig eng r).result =
        .ret (⟨some color.Model.RGBAModel, int im.columns, int im.rows⟩, none) ∧
      (im.columns < 9223372036854775808 → im.rows < 9223372036854775808 →
        (DecodeConfig eng r).result =
          .ret (⟨some color.Model.RGBAModel, im.columns, im.rows⟩, none))) ∧
    (eng.PingBlob (bufio.NewReader r).buf = none →
      (DecodeConfig eng r).result =
        .ret (⟨none, 0, 0⟩, some (errors.New "Unable to decode image"))) := by
  rcases hb : eng.PingBlob (bufio.NewReader r).buf with _ | im
  · rw [DecodeConfig_null eng r h hb]
    refine ⟨?_, ?_, ?_⟩
    · intro data ret
      simp
    · intro im him
      exact absurd him (by simp)
    · intro _
      rfl
  · rw [DecodeConfig_pinged eng r im h hb]
    refine ⟨?_, ?_, ?_⟩
    · intro data ret
      simp [eq_comm]
    · intro im1 him
      simp only [Option.some.injEq] at him
      subst him
      refine ⟨rfl, ?_⟩
      intro hc hr
      rw [int_eq_self (by omega) (by omega : (im.columns : Int) < 9223372036854775808),
        int_eq_self (by omega) (by omega : (im.rows : Int) < 9223372036854775808)]
    · intro hn
      exact absurd hn (by simp)

theorem DecodeConfig_descriptor_witness :
    (bufio.NewReader oneBuffered).buf ≠ [] ∧
    okEngine.PingBlob (bufio.NewReader oneBuffered).buf = some onePixel ∧
    (DecodeConfig okEngine oneBuffered).result =
      .ret (⟨some color.Model.RGBAModel, 1, 1⟩, none) :=
  ⟨by decide, rfl,
    (((DecodeConfig_descriptor okEngine oneBuffered (by decide)).2.1 onePixel rfl).2
      (by decide) (by decide))⟩

/-! ## C6 and C7 -/

theorem GoBytes_negative (p : Option (List Byte)) (z : Int) (h : z < 0) :
    C.GoBytes p z = none := by
  unfold C.GoBytes
  rw [if_neg (by omega), if_pos h]

theorem GoBytes_positive (l : List Byte) (z : Int) (h : 0 < z) :
    C.GoBytes (some l) z = some (l.take z.toNat) := by
  unfold C.GoBytes
  rw [if_neg (by omega), if_neg (by omega)]
  rfl

theorem size_replicate (n : Nat) :
    EncodeRGBA.size (some (List.replicate n (0 : Byte))) = n := by
  simp [EncodeRGBA.size]

/-- With a blob whose length reads as a negative C `int`, `EncodeRGBA` is aborted. -/
theorem EncodeRGBA_bigBlob_abort (n : Nat) (w : Writer) (kind : List Byte)
    (h : C.int n < 0) :
    EncodeRGBA (bigBlobEngine n) w whitePixel kind = ⟨.abort "gobytes: length out of range",
      [.GetExceptionInfo, .CString .m [82, 71, 66, 65],
        .ConstituteImage 1 1 whitePixel.Pix (some onePixel),
        .free (some .m), .CloneImageInfo, .CString .mg kind,
        .setMagick (EncodeRGBA.tagged (bigBlobEngine n) onePixel kind) (C.CString kind),
        .ImageToBlob (EncodeRGBA.tagged (bigBlobEngine n) onePixel kind)
          (some (List.replicate n 0)),
        .free (some .data), .free (some .mg), .DestroyImageInfo]⟩ := by
  have hg : C.GoBytes (some (List.replicate n (0 : Byte)))
      (C.int (EncodeRGBA.size (some (List.replicate n (0 : Byte))))) = none := by
    rw [size_replicate]
    exact GoBytes_negative _ _ h
  exact EncodeRGBA_out_of_range (bigBlobEngine n) w whitePixel kind onePixel (by decide) rfl hg

/-- With a blob whose length reads as a positive C `int` `k`, `EncodeRGBA` writes the
first `k` bytes of the blob. -/
theorem EncodeRGBA_bigBlob_written (n : Nat) (w : Writer) (kind : List Byte)
    (h : 0 < C.int n) :
    EncodeRGBA (bigBlobEngine n) w whitePixel kind = ⟨.ret none,
      [.GetExceptionInfo, .CString .m [82, 71, 66, 65],
        .ConstituteImage 1 1 whitePixel.Pix (some onePixel),
        .free (some .m), .CloneImageInfo, .CString .mg kind,
        .setMagick (EncodeRGBA.tagged (bigBlobEngine n) onePixel kind) (C.CString kind),
        .ImageToBlob (EncodeRGBA.tagged (bigBlobEngine n) onePixel kind)
          (some (List.replicate n 0)),
        .Write ((List.replicate n 0).take (C.int n).toNat),
        .free (some .data), .free (some .mg), .DestroyImageInfo]⟩ := by
  have hg : C.GoBytes (some (List.replicate n (0 : Byte)))
      (C.int (EncodeRGBA.size (some (List.replicate n (0 : Byte))))) =
      some ((List.replicate n 0).take (C.int n).toNat) := by
    rw [size_replicate]
    exact GoBytes_positive _ _ h
  exact EncodeRGBA_written (bigBlobEngine n) w whitePixel kind onePixel _ (by decide) rfl hg

/-- When the constitute step returns a handle and the blob of the engine has fewer than
`2^31` bytes, `EncodeRGBA` returns nil and makes one write, of the whole blob. -/
theorem EncodeRGBA_writes_small_blob (eng : Engine) (w : Writer) (im : image.RGBA)
    (kind : List Byte) (img : Image) (blob : List Byte) (hp : im.Pix ≠ [])
    (hc : EncodeRGBA.constituted eng im = some img)
    (hb : eng.ImageToBlob (EncodeRGBA.tagged eng img kind) = some blob)
    (hs : blob.length < 2147483648) :
    (EncodeRGBA eng w im kind).result = .ret none ∧
    ∀ p, Event.Write p ∈ (EncodeRGBA eng w im kind).trace ↔ p = blob := by
  have hsz : EncodeRGBA.size (some blob) = blob.length := rfl
  have hint : C.int (blob.length : Int) = blob.length := by
    unfold C.int
    omega
  have hg : C.GoBytes (eng.ImageToBlob (EncodeRGBA.tagged eng img kind))
      (C.int (EncodeRGBA.size (eng.ImageToBlob (EncodeRGBA.tagged eng img kind)))) =
      some blob := by
    rw [hb, hsz, hint]
    unfold C.GoBytes
    by_cases h0 : blob.length = 0
    · have : blob = [] := List.length_eq_zero.mp h0
      subst this
      simp
    · rw [if_neg (by omega), if_neg (by omega)]
      simp
  rw [EncodeRGBA_written eng w im kind img blob hp hc hg]
  refine ⟨rfl, ?_⟩
  intro p
  simp only [List.mem_cons, reduceCtorEq, false_or, Event.Write.injEq, List.mem_nil_iff,
    or_false]

/-- C6 (the code at the failing inputs): for an image with no pixel `EncodeRGBA` is
aborted at `&im.Pix[0]` before the constitute step; and when the constitute step returns
a handle and the blob has `2^31` bytes it is aborted in `C.GoBytes`.  In neither case
does it return nil. -/
theorem EncodeRGBA_aborts_instead_of_nil (eng : Engine) (w : Writer) :
    (EncodeRGBA eng w noPixel bmp).result = .abort indexOutOfRange ∧
    EncodeRGBA.constituted (bigBlobEngine 2147483648) whitePixel = some onePixel ∧
    (EncodeRGBA (bigBlobEngine 2147483648) w whitePixel bmp).result =
      .abort "gobytes: length out of range" := by
  refine ⟨?_, rfl, ?_⟩
  · rw [EncodeRGBA_no_pixels eng w noPixel bmp rfl]
  · rw [EncodeRGBA_bigBlob_abort 2147483648 w bmp (by decide)]

/-- C7 (the code at the failing input): when the constitute step returns a handle and
the engine produces a blob of `2^32 + 1` bytes, the only write to the sink is of a single
byte. -/
theorem EncodeRGBA_truncates_large_blob (w : Writer) :
    EncodeRGBA.constituted (bigBlobEngine 4294967297) whitePixel = some onePixel ∧
    (bigBlobEngine 4294967297).ImageToBlob
      (EncodeRGBA.tagged (bigBlobEngine 4294967297) onePixel bmp) =
      some (List.replicate 4294967297 0) ∧
    (EncodeRGBA (bigBlobEngine 4294967297) w whitePixel bmp).result = .ret none ∧
    (∀ p, Event.Write p ∈ (EncodeRGBA (bigBlobEngine 4294967297) w whitePixel bmp).trace ↔
      p = [0]) := by
  have ht : (List.replicate 4294967297 (0 : Byte)).take (C.int (4294967297 : Nat)).toNat =
      [0] := by
    rw [List.take_replicate]
    rfl
  refine ⟨rfl, rfl, ?_, ?_⟩
  · rw [EncodeRGBA_bigBlob_written 4294967297 w bmp (by decide)]
  · intro p
    rw [EncodeRGBA_bigBlob_written 4294967297 w bmp (by decide), ht]
    simp only [List.mem_cons, reduceCtorEq, false_or, Event.Write.injEq, List.mem_nil_iff,
      or_false]

/-! ## C8 -/

theorem strncpy_length (m : List Byte) (n : Nat) : (strncpy m n).length = n := by
  induction m generalizing n with
  | nil => cases n <;> simp [strncpy]
  | cons c cs ih =>
    cases n with
    | zero => simp [strncpy]
    | succ n =>
      by_cases hc : c = 0
      · simp [strncpy, hc]
      · simp [strncpy, hc, ih]

theorem strncpy_CString (tag : List Byte) (n : Nat) :
    strncpy (C.CString tag) n =
      (tag.takeWhile (· ≠ 0)).take n ++
        List.replicate (n - (tag.takeWhile (· ≠ 0)).length) 0 := by
  induction tag generalizing n with
  | nil =>
    cases n with
    | zero => simp [C.CString, strncpy]
    | succ n => simp [C.CString, strncpy]
  | cons c cs ih =>
    cases n with
    | zero => simp [C.CString, strncpy]
    | succ n =>
      by_cases hc : c = 0
      · simp [C.CString, strncpy, hc]
      · have ih' := ih n
        simp only [C.CString] at ih'
        simp [C.CString, strncpy, hc, ih']

theorem takeWhile_no_NUL (tag : List Byte) (h : ∀ b ∈ tag, b ≠ 0) :
    tag.takeWhile (· ≠ 0) = tag := by
  induction tag with
  | nil => rfl
  | cons c cs ih =>
    have hc : c ≠ 0 := h c (List.mem_cons_self c cs)
    have hcs : ∀ b ∈ cs, b ≠ 0 := fun b hb => h b (List.mem_cons_of_mem c hb)
    simp only [List.takeWhile, ne_eq, hc, not_false_eq_true, decide_True]
    exact congrArg (c :: ·) (ih hcs)

theorem setMagick_of_slot (cap : Nat) (im : Image) (m : List Byte)
    (h : im.magick.length = cap) :
    setMagick cap im m = { im with magick := strncpy m cap } := by
  have hl := strncpy_length m cap
  have hd : (im.magick ++ im.after).drop (strncpy m cap).length = im.after := by
    rw [hl, ← h]
    exact List.drop_left' rfl
  unfold setMagick
  simp only [hd]
  have ht : (strncpy m cap ++ im.after).take im.magick.length = strncpy m cap :=
    List.take_left' (by rw [hl, h])
  have hdr : (strncpy m cap ++ im.after).drop im.magick.length = im.after :=
    List.drop_left' (by rw [hl, h])
  rw [ht, hdr]

/-- C8: for every format tag, of any length, the `strncpy` of `setMagick` into a `magick`
slot of `MaxTextExtent` bytes stores exactly `MaxTextExtent` bytes, all of them in the
slot: what lies after the slot and the dimension fields are unchanged and the slot keeps
its size.  The slot ends up holding the tag as a C string (its bytes up to the first NUL,
which are all its bytes when it has none) cut at the capacity, and NUL in the bytes that
remain.  This is the write `EncodeRGBA` makes on the handle the engine constituted. -/
theorem setMagick_stays_in_slot (eng : Engine) (img : Image) (kind : List Byte)
    (h : img.magick.length = eng.MaxTextExtent) :
    (strncpy (C.CString kind) eng.MaxTextExtent).length = eng.MaxTextExtent ∧
    (EncodeRGBA.tagged eng img kind).after = img.after ∧
    (EncodeRGBA.tagged eng img kind).columns = img.columns ∧
    (EncodeRGBA.tagged eng img kind).rows = img.rows ∧
    (EncodeRGBA.tagged eng img kind).magick.length = eng.MaxTextExtent ∧
    (EncodeRGBA.tagged eng img kind).magick =
      (kind.takeWhile (· ≠ 0)).take eng.MaxTextExtent ++
        List.replicate (eng.MaxTextExtent - (kind.takeWhile (· ≠ 0)).length) 0 ∧
    ((∀ b ∈ kind, b ≠ 0) →
      (EncodeRGBA.tagged eng img kind).magick =
        kind.take eng.MaxTextExtent ++
          List.replicate (eng.MaxTextExtent - kind.length) 0) ∧
    (∀ (w : Writer) (im : image.RGBA), im.Pix ≠ [] →
      EncodeRGBA.constituted eng im = some img →
      ∀ img1 m, Event.setMagick img1 m ∈ (EncodeRGBA eng w im kind).trace ↔
        img1 = EncodeRGBA.tagged eng img kind ∧ m = C.CString kind) := by
  have ht : EncodeRGBA.tagged eng img kind =
      { img with magick := strncpy (C.CString kind) eng.MaxTextExtent } :=
    setMagick_of_slot eng.MaxTextExtent img (C.CString kind) h
  have hm : (EncodeRGBA.tagged eng img kind).magick =
      strncpy (C.CString kind) eng.MaxTextExtent := by rw [ht]
  refine ⟨strncpy_length _ _, by rw [ht], by rw [ht], by rw [ht], ?_, ?_, ?_, ?_⟩
  · rw [hm, strncpy_length]
  · rw [hm, strncpy_CString]
  · intro hk
    rw [hm, strncpy_CString, takeWhile_no_NUL kind hk]
  · intro w im hp hc img1 m
    rcases EncodeRGBA_cases eng w im kind with ⟨hp1, _⟩ | ⟨_, hc1, _⟩ |
      ⟨img2, _, hc2, _, hE⟩ | ⟨img2, p, _, hc2, _, hE⟩
    · exact absurd hp1 hp
    · rw [hc] at hc1
      exact absurd hc1 (by simp)
    · rw [hc] at hc2
      simp only [Option.some.injEq] at hc2
      subst hc2
      rw [hE]
      simp only [List.mem_cons, reduceCtorEq, false_or, Event.setMagick.injEq,
        List.mem_nil_iff, or_false]
    · rw [hc] at hc2
      simp only [Option.some.injEq] at hc2
      subst hc2
      rw [hE]
      simp only [List.mem_cons, reduceCtorEq, false_or, Event.setMagick.injEq,
        List.mem_nil_iff, or_false]

theorem setMagick_stays_in_slot_witness :
    onePixel.magick.length = okEngine.MaxTextExtent ∧
    (EncodeRGBA.tagged okEngine onePixel bmp).after = onePixel.after ∧
    (EncodeRGBA.tagged okEngine onePixel bmp).magick =
      (bmp.takeWhile (· ≠ 0)).take okEngine.MaxTextExtent ++
        List.replicate (okEngine.MaxTextExtent - (bmp.takeWhile (· ≠ 0)).length) 0 :=
  have h : onePixel.magick.length = okEngine.MaxTextExtent := List.length_replicate _ _
  ⟨h, (setMagick_stays_in_slot okEngine onePixel bmp h).2.1,
    (setMagick_stays_in_slot okEngine onePixel bmp h).2.2.2.2.2.1⟩

/-! ## C9 -/

theorem EncodeRGBA_okEngine :
    EncodeRGBA okEngine okWriter whitePixel bmp = ⟨.ret none,
      [.GetExceptionInfo, .CString .m [82, 71, 66, 65],
        .ConstituteImage 1 1 whitePixel.Pix (some onePixel),
        .free (some .m), .CloneImageInfo, .CString .mg bmp,
        .setMagick (EncodeRGBA.tagged okEngine onePixel bmp) (C.CString bmp),
        .ImageToBlob (EncodeRGBA.tagged okEngine onePixel bmp) (some [66, 77]),
        .Write [66, 77],
        .free (some .data), .free (some .mg), .DestroyImageInfo]⟩ :=
  EncodeRGBA_written okEngine okWriter whitePixel bmp onePixel [66, 77] (by decide) rfl rfl

/-- C9 as stated fails: `Decode` returns an image after acquiring an error context that
it does not release. -/
theorem resources_counterexample :
    ¬ (∀ (eng : Engine) (r : Reader) (w : Writer) (im : image.RGBA) (kind : List Byte),
        ((∃ v, (Decode eng r).result = .ret v) → AllReleasedOnce (Decode eng r).trace) ∧
        ((∃ v, (DecodeConfig eng r).result = .ret v) →
          AllReleasedOnce (DecodeConfig eng r).trace) ∧
        ((∃ v, (EncodeRGBA eng w im kind).result = .ret v) →
          AllReleasedOnce (EncodeRGBA eng w im kind).trace)) := by
  intro h
  have h1 := (h okEngine oneByte okWriter whitePixel bmp).1 ⟨_, by rw [Decode_okEngine]⟩
    Handle.exc
  rw [Decode_okEngine] at h1
  simp [acquired, released, Event.acquires, Event.releases] at h1

/-- The constituted image handle is not released when `EncodeRGBA` succeeds. -/
theorem EncodeRGBA_keeps_constituted_image :
    (EncodeRGBA okEngine okWriter whitePixel bmp).result = .ret none ∧
    acquired (EncodeRGBA okEngine okWriter whitePixel bmp).trace .im = 1 ∧
    released (EncodeRGBA okEngine okWriter whitePixel bmp).trace .im = 0 := by
  rw [EncodeRGBA_okEngine]
  simp [acquired, released, Event.acquires, Event.releases]

/-- C9, amended: whenever `Decode` or `DecodeConfig` returns, every image-info context,
image handle and C string it acquired has been released exactly once, and whenever
`EncodeRGBA` returns, so has every image-info context, C string and blob it acquired
(nothing is said here of its constituted image handle); no operation ever releases the
error context it sets up. -/
theorem resources_released_on_return (eng : Engine) (r : Reader) (w : Writer)
    (im : image.RGBA) (kind : List Byte) :
    ((∃ v, (Decode eng r).result = .ret v) → ∀ h, h ≠ .exc →
      acquired (Decode eng r).trace h ≤ 1 ∧
      released (Decode eng r).trace h = acquired (Decode eng r).trace h) ∧
    ((∃ v, (DecodeConfig eng r).result = .ret v) → ∀ h, h ≠ .exc →
      acquired (DecodeConfig eng r).trace h ≤ 1 ∧
      released (DecodeConfig eng r).trace h = acquired (DecodeConfig eng r).trace h) ∧
    ((∃ v, (EncodeRGBA eng w im kind).result = .ret v) → ∀ h, h ≠ .exc → h ≠ .im →
      acquired (EncodeRGBA eng w im kind).trace h ≤ 1 ∧
      released (EncodeRGBA eng w im kind).trace h =
        acquired (EncodeRGBA eng w im kind).trace h) ∧
    released (Decode eng r).trace .exc = 0 ∧
    released (DecodeConfig eng r).trace .exc = 0 ∧
    released (EncodeRGBA eng w im kind).trace .exc = 0 := by
  refine ⟨?_, ?_, ?_, ?_, ?_, ?_⟩
  · rintro ⟨v, hv⟩ h hh
    rcases Decode_cases eng r with ⟨d, e, _, hD⟩ | ⟨_, hD⟩ | ⟨d, _, _, _, hD⟩ |
      ⟨d, im1, _, _, _, _, hD⟩ | ⟨d, im1, img1, _, _, _, _, _, hD⟩ |
      ⟨d, im1, img1, _, _, _, _, _, _, hD⟩ | ⟨d, im1, img1, _, _, _, _, _, _, hD⟩ <;>
    rw [hD] at hv ⊢ <;>
    first
      | (exfalso; simp at hv; done)
      | (cases h <;> simp [acquired, released, Event.acquires, Event.releases] at hh ⊢)
  · rintro ⟨v, hv⟩ h hh
    by_cases hb : (bufio.NewReader r).buf = []
    · rw [DecodeConfig_empty eng r hb] at hv
      exact absurd hv (by simp)
    · rcases hp : eng.PingBlob (bufio.NewReader r).buf with _ | im1
      · rw [DecodeConfig_null eng r hb hp]
        cases h <;> simp [acquired, released, Event.acquires, Event.releases] at hh ⊢
      · rw [DecodeConfig_pinged eng r im1 hb hp]
        cases h <;> simp [acquired, released, Event.acquires, Event.releases] at hh ⊢
  · rintro ⟨v, hv⟩ h hh hi
    rcases EncodeRGBA_cases eng w im kind with ⟨_, hE⟩ | ⟨_, _, hE⟩ |
      ⟨img, _, _, _, hE⟩ | ⟨img, p, _, _, _, hE⟩ <;>
    rw [hE] at hv ⊢
    · exact absurd hv (by simp)
    · cases h <;> simp [acquired, released, Event.acquires, Event.releases] at hh hi ⊢
    · exact absurd hv (by simp)
    · rcases eng.ImageToBlob (EncodeRGBA.tagged eng img kind) with _ | blob <;>
      cases h <;> simp [acquired, released, Event.acquires, Event.releases] at hh hi ⊢
  · rcases Decode_cases eng r with ⟨d, e, _, hD⟩ | ⟨_, hD⟩ | ⟨d, _, _, _, hD⟩ |
      ⟨d, im1, _, _, _, _, hD⟩ | ⟨d, im1, img1, _, _, _, _, _, hD⟩ |
      ⟨d, im1, img1, _, _, _, _, _, _, hD⟩ | ⟨d, im1, img1, _, _, _, _, _, _, hD⟩ <;>
    rw [hD] <;> simp [released, Event.releases]
  · by_cases hb : (bufio.NewReader r).buf = []
    · rw [DecodeConfig_empty eng r hb]
      simp [released, Event.releases]
    · rcases hp : eng.PingBlob (bufio.NewReader r).buf with _ | im1
      · rw [DecodeConfig_null eng r hb hp]
        simp [released, Event.releases]
      · rw [DecodeConfig_pinged eng r im1 hb hp]
        simp [released, Event.releases]
  · rcases EncodeRGBA_cases eng w im kind with ⟨_, hE⟩ | ⟨_, _, hE⟩ |
      ⟨img, _, _, _, hE⟩ | ⟨img, p, _, _, _, hE⟩ <;>
    rw [hE]
    · simp [released, Event.releases]
    · simp [released, Event.releases]
    · rcases eng.ImageToBlob (EncodeRGBA.tagged eng img kind) with _ | blob <;>
      simp [released, Event.releases]
    · rcases eng.ImageToBlob (EncodeRGBA.tagged eng img kind) with _ | blob <;>
      simp [released, Event.releases]

theorem resources_released_on_return_witness :
    (∃ v, (Decode okEngine oneByte).result = .ret v) ∧
    acquired (Decode okEngine oneByte).trace .im ≤ 1 ∧
    released (Decode okEngine oneByte).trace .im =
      acquired (Decode okEngine oneByte).trace .im ∧
    (∃ v, (EncodeRGBA okEngine okWriter whitePixel bmp).result = .ret v) ∧
    released (EncodeRGBA okEngine okWriter whitePixel bmp).trace .data =
      acquired (EncodeRGBA okEngine okWriter whitePixel bmp).trace .data :=
  have hd : ∃ v, (Decode okEngine oneByte).result = .ret v := ⟨_, by rw [Decode_okEngine]⟩
  have he : ∃ v, (EncodeRGBA okEngine okWriter whitePixel bmp).result = .ret v :=
    ⟨_, by rw [EncodeRGBA_okEngine]⟩
  ⟨hd,
    ((resources_released_on_return okEngine oneByte okWriter whitePixel bmp).1 hd .im
      (by decide)).1,
    ((resources_released_on_return okEngine oneByte okWriter whitePixel bmp).1 hd .im
      (by decide)).2,
    he,
    ((resources_released_on_return okEngine oneByte okWriter whitePixel bmp).2.2.1 he .data
      (by decide) (by decide)).2⟩

/-! ## C10 -/

theorem init_formats (order : List (String × String)) (formats : List image.format) :
    (init order formats).1 = formats ++ order.map init.entry := by
  unfold init
  simp only
  induction order generalizing formats with
  | nil => simp
  | cons kv rest ih =>
    rw [List.foldl_cons, ih]
    simp [image.RegisterFormat, init.entry]

/-- C10: the table `fmts` has exactly the four entries dpx, psd, xcf and bmp with their
signatures, with pairwise distinct tags; and in whatever order `range` visits them, `init`
adds four registrations to the host dispatcher, one for each entry of the table and each
entry once, all with `Decode` as the decode function and `DecodeConfig` as the probe. -/
theorem init_registers_fmts (order : List (String × String)) (formats : List image.format)
    (h : order.Perm fmts) :
    fmts = [("dpx", "SDPX"), ("psd", "8BPS"), ("xcf", "gimp xcf"), ("bmp", "BM")] ∧
    (fmts.map Prod.fst).Nodup ∧
    ∃ added, (init order formats).1 = formats ++ added ∧
      added.length = 4 ∧
      (added.map fun e => (e.name, e.magic)).Perm fmts ∧
      (∀ kv ∈ fmts, (added.map fun e => (e.name, e.magic)).countP (fun x => x = kv) = 1) ∧
      (∀ e ∈ added, e.decode = Decode ∧ e.decodeConfig = DecodeConfig) := by
  have hmap : (order.map init.entry).map (fun e => (e.name, e.magic)) = order := by
    rw [List.map_map]
    exact List.map_id _
  refine ⟨rfl, by decide, order.map init.entry, init_formats order formats, ?_, ?_, ?_, ?_⟩
  · rw [List.length_map, h.length_eq]
    rfl
  · rw [hmap]
    exact h
  · intro kv hkv
    rw [hmap, h.countP_eq]
    simp only [fmts, List.mem_cons, List.mem_nil_iff, or_false] at hkv
    rcases hkv with rfl | rfl | rfl | rfl <;> decide
  · intro e he
    obtain ⟨kv, _, rfl⟩ := List.mem_map.mp he
    exact ⟨rfl, rfl⟩

theorem init_registers_fmts_witness :
    fmts.Perm fmts ∧
    ∃ added, (init fmts []).1 = [] ++ added ∧
      added.length = 4 ∧
      (added.map fun e => (e.name, e.magic)).Perm fmts ∧
      (∀ kv ∈ fmts, (added.map fun e => (e.name, e.magic)).countP (fun x => x = kv) = 1) ∧
      (∀ e ∈ added, e.decode = Decode ∧ e.decodeConfig = DecodeConfig) :=
  ⟨List.Perm.refl _, (init_registers_fmts fmts [] (List.Perm.refl _)).2.2⟩

end GM
